import Mathlib

/-!
Shallow embedding of the BILN-LM hyperparameter-search harness
(`fingerprint_evaluation.py`, `train.py`, `metrics.py`) and proofs of the
spec's testable properties about it.  Floating-point losses are modelled by
the rationals; `math.inf` (the initial `prev_loss`) is modelled by `none`
in `Option ℚ`, so that any finite loss compares strictly below it, exactly
as in the Python comparison `loss < math.inf`.
-/

namespace BilnLM

/-! ### Task taxonomy (fingerprint_evaluation.py lines 32-35) -/

def REGRESSION_TASKS : List String := ["c-binding", "nc-binding", "nc-cpp"]

def CLASSIFICATION_TASKS : List String := ["c-sol", "c-cpp"]

def TASKS : List String := REGRESSION_TASKS ++ CLASSIFICATION_TASKS

def MULTI_INSTANCE_TASKS : List String := ["c-binding", "nc-binding"]

/-! ### Incumbent tracker

`run_hpo` initialises `prev_loss = math.inf`; each call of
`optim_objective` ends with `if loss < prev_loss: prev_loss = loss` followed
by the persistence write (`json.dump(..., 'best_model.json')`).  The second
component of `observeStep` records whether that persistence write fired. -/

def observeStep (prev : Option ℚ) (loss : ℚ) : Option ℚ × Bool :=
  match prev with
  | none => (some loss, true)
  | some p => if loss < p then (some loss, true) else (some p, false)

/-- Run the search loop over a list of observed losses, threading
`prev_loss` and collecting the per-trial persistence flags. -/
def runSearch : Option ℚ → List ℚ → Option ℚ × List Bool
  | p, [] => (p, [])
  | p, l :: rest =>
      let s := observeStep p l
      let r := runSearch s.1 rest
      (r.1, s.2 :: r.2)

/-- The held `prev_loss` after the first `N` observations of a search. -/
def prevLossAfter (losses : List ℚ) (N : Nat) : Option ℚ :=
  (runSearch none (losses.take N)).1

theorem runSearch_fst_some (losses : List ℚ) :
    ∀ p : ℚ, (runSearch (some p) losses).1 = some (losses.foldl min p) := by
  induction losses with
  | nil => intro p; rfl
  | cons l rest ih =>
      intro p
      by_cases h : l < p
      · simp only [runSearch, observeStep, if_pos h, ih, List.foldl_cons]
        rw [min_eq_right (le_of_lt h)]
      · simp only [runSearch, observeStep, if_neg h, ih, List.foldl_cons]
        rw [min_eq_left (le_of_not_lt h)]

theorem runSearch_none_fst (losses : List ℚ) :
    (runSearch none losses).1 = losses.min? := by
  cases losses with
  | nil => rfl
  | cons l rest =>
      simp only [runSearch, observeStep, runSearch_fst_some]
      rfl

theorem runSearch_flags_length (losses : List ℚ) :
    ∀ p : Option ℚ, (runSearch p losses).2.length = losses.length := by
  induction losses with
  | nil => intro p; rfl
  | cons l rest ih =>
      intro p
      simp only [runSearch, List.length_cons, ih]

theorem foldl_min_le_init (l : List ℚ) : ∀ b : ℚ, l.foldl min b ≤ b := by
  induction l with
  | nil => intro b; exact le_refl b
  | cons c cs ih =>
      intro b
      simp only [List.foldl_cons]
      exact le_trans (ih (min b c)) (min_le_left b c)

theorem min?_append_singleton (xs : List ℚ) (x q : ℚ)
    (h : xs.min? = some q) :
    ∃ r, (xs ++ [x]).min? = some r ∧ r ≤ q := by
  cases xs with
  | nil => simp [List.min?] at h
  | cons a t =>
      have hq : q = t.foldl min a := by
        have h1 : (a :: t).min? = some (t.foldl min a) := rfl
        rw [h1] at h
        injection h with h2
        exact h2.symm
      refine ⟨(t ++ [x]).foldl min a, rfl, ?_⟩
      rw [List.foldl_append]
      simp only [List.foldl_cons, List.foldl_nil]
      rw [hq]
      exact min_le_left (t.foldl min a) x

/-- C1: after any prefix of observations, the held incumbent loss is
exactly the minimum of the losses seen so far; it never increases from one
observation to the next; and a held incumbent is replaced only when the new
loss is a strict improvement. -/
theorem incumbent_prefix_min (losses : List ℚ) :
    (∀ N : Nat, prevLossAfter losses N = (losses.take N).min?) ∧
    (∀ (N : Nat) (q r : ℚ), prevLossAfter losses N = some q →
        prevLossAfter losses (N + 1) = some r → r ≤ q) ∧
    (∀ (p l : ℚ), (observeStep (some p) l).1 ≠ some p → l < p) := by
  refine ⟨fun N => runSearch_none_fst (losses.take N), ?_, ?_⟩
  · intro N q r hq hr
    rw [prevLossAfter, runSearch_none_fst] at hq hr
    rw [List.take_succ] at hr
    cases hget : losses[N]? with
    | none =>
        rw [hget] at hr
        simp only [Option.toList_none, List.append_nil] at hr
        rw [hq] at hr
        injection hr with h1
        rw [h1]
    | some x =>
        rw [hget] at hr
        simp only [Option.toList_some] at hr
        obtain ⟨r', hr', hle⟩ := min?_append_singleton _ x q hq
        rw [hr'] at hr
        injection hr with h1
        rw [← h1]
        exact hle
  · intro p l h
    by_cases hlt : l < p
    · exact hlt
    · exfalso
      apply h
      simp only [observeStep, if_neg hlt]

/-- C1 witness: concrete instantiation on the losses `[9/10, 1/2, 7/10]`. -/
theorem incumbent_prefix_min_witness :
    prevLossAfter [9/10, 1/2, 7/10] 2 = ([(9 : ℚ)/10, 1/2, 7/10].take 2).min? ∧
    ((1 : ℚ)/2 ≤ 9/10) ∧ ((1 : ℚ)/2 < 9/10) := by
  refine ⟨(incumbent_prefix_min [9/10, 1/2, 7/10]).1 2, ?_, ?_⟩
  · exact (incumbent_prefix_min [9/10, 1/2, 7/10]).2.1 1 (9/10) (1/2)
      (by norm_num [prevLossAfter, runSearch, observeStep])
      (by norm_num [prevLossAfter, runSearch, observeStep])
  · exact (incumbent_prefix_min [9/10, 1/2, 7/10]).2.2 (9/10) (1/2)
      (by norm_num [observeStep])

/-- C2: on the loss sequence `[0.9, 0.5, 0.7, 0.3, 0.6]` the search ends
holding `0.3` and the persistence write fires exactly on the observations
`0.9`, `0.5` and `0.3` (three events), and on no other observation. -/
theorem search_scenario_losses :
    runSearch none [9/10, 1/2, 7/10, 3/10, 3/5] =
      (some (3/10), [true, true, false, true, false]) := by
  norm_num [runSearch, observeStep]

/-! ### Search loop error behaviour

`study.optimize(optim_objective, n_trials=10, ...)` (fingerprint_evaluation.py
lines 284-285) passes no `catch` argument, so an exception raised inside
`optim_objective` (for instance the `raise ValueError(...)` at line 256, or a
failing `model.fit`) propagates out of `optimize` and ends the search.  A
trial outcome is modelled as `Except String ℚ`: either a loss returned to
the oracle, or a raised exception. -/

/-- Run the trial outcomes through the optimize loop.  Returns the final
`prev_loss`, the number of trials that completed (returned a loss to the
oracle), and the exception that aborted the loop, if any. -/
def optimizeTrials : Option ℚ → List (Except String ℚ) → Option ℚ × Nat × Option String
  | p, [] => (p, 0, none)
  | p, Except.ok l :: rest =>
      let r := optimizeTrials (observeStep p l).1 rest
      (r.1, r.2.1 + 1, r.2.2)
  | p, Except.error e :: _ => (p, 0, some e)

/-- Upper bound of the sampled knn neighbour count
(fingerprint_evaluation.py line 240): `len(ds['train']) // 10`. -/
def knnNeighborHigh (nTrain : Nat) : Nat := nTrain / 10

/-- C3 counterexample: a raising first trial aborts the whole search; it is
not converted into a penalized observation, and the remaining trial never
reaches the oracle. -/
theorem trial_failure_crashes_search :
    ¬ ((optimizeTrials none [Except.error "ValueError", Except.ok 1]).2.2 = none ∧
       (optimizeTrials none [Except.error "ValueError", Except.ok 1]).2.1 = 2) := by
  decide

/-- C3 amended: an exception raised in a trial propagates out of
`study.optimize`, so only the trials before it complete; the degenerate knn
neighbour count of the claim's example never arises because the sampled
value is bounded by `len(train) // 10 ≤ len(train)`. -/
theorem trial_failure_propagates (pre : List ℚ) (e : String)
    (post : List (Except String ℚ)) (p : Option ℚ) :
    (optimizeTrials p (pre.map Except.ok ++ Except.error e :: post)).2.2 = some e ∧
    (optimizeTrials p (pre.map Except.ok ++ Except.error e :: post)).2.1 = pre.length ∧
    (∀ nTrain n : Nat, n ≤ knnNeighborHigh nTrain → n ≤ nTrain) := by
  refine ⟨?_, ?_, ?_⟩
  · induction pre generalizing p with
    | nil => rfl
    | cons l ls ih =>
        simpa only [List.map_cons, List.cons_append, optimizeTrials] using
          ih (observeStep p l).1
  · induction pre generalizing p with
    | nil => rfl
    | cons l ls ih =>
        simp only [List.map_cons, List.cons_append, optimizeTrials,
          List.length_cons, List.append_eq]
        rw [ih (observeStep p l).1]
  · intro nTrain n h
    exact le_trans h (Nat.div_le_self nTrain 10)

/-- C3 amended witness: concrete instantiation with one completed trial
before the raising one. -/
theorem trial_failure_propagates_witness :
    (optimizeTrials none
        ([(1 : ℚ)/2].map Except.ok ++ Except.error "boom" :: [Except.ok 1])).2.2 =
      some "boom" ∧ (10 : Nat) ≤ 100 := by
  refine ⟨(trial_failure_propagates [1/2] "boom" [Except.ok 1] none).1, ?_⟩
  exact (trial_failure_propagates [1/2] "boom" [Except.ok 1] none).2.2 100 10
    (by decide)

/-! ### Trial budgets -/

/-- Trial budget of the classical search:
`study.optimize(optim_objective, n_trials=10, ...)` at
fingerprint_evaluation.py line 284. -/
def classical_n_trials : Nat := 10

/-- Trial budget of the neural search:
`study.optimize(optim_objective, n_trials=30)` at train.py line 93. -/
def neural_n_trials : Nat := 30

/-- C5 counterexample: the neural variant's trial count is not strictly
smaller than the classical variant's. -/
theorem neural_budget_not_smaller : ¬ neural_n_trials < classical_n_trials := by
  decide

/-- C5 amended: each search runs a fixed trial budget — 10 trials for the
classical search and 30 for the neural one, so the neural budget is strictly
larger; the classical loop observes exactly its budget of trials. -/
theorem trial_budgets :
    classical_n_trials = 10 ∧ neural_n_trials = 30 ∧
    classical_n_trials < neural_n_trials ∧
    ∀ losses : Nat → ℚ,
      (runSearch none ((List.range classical_n_trials).map losses)).2.length =
        classical_n_trials := by
  refine ⟨rfl, rfl, by decide, ?_⟩
  intro losses
  rw [runSearch_flags_length]
  simp

/-! ### Neural search log-directory guard (train.py lines 39-51, 93) -/

inductive HpoEvent where
  | raiseDirExists
  | rmtreeLogDir
  | createStudy
  | runTrial (i : Nat)
deriving DecidableEq

/-- Event trace of the neural `run_hpo`: the existing-directory guard runs
before the study is created, deleting the whole tree when `overwrite` is set
and raising `RuntimeError` otherwise. -/
def neuralRunHpo (dirExists overwrite : Bool) (nTrials : Nat) : List HpoEvent :=
  if dirExists && !overwrite then
    [HpoEvent.raiseDirExists]
  else if dirExists && overwrite then
    HpoEvent.rmtreeLogDir :: HpoEvent.createStudy ::
      (List.range nTrials).map HpoEvent.runTrial
  else
    HpoEvent.createStudy :: (List.range nTrials).map HpoEvent.runTrial

/-- C9: with an existing log directory and `overwrite` unset, `run_hpo`
raises before creating a study or running any trial; with `overwrite` set,
the directory tree is removed before the study is created and the trials
run. -/
theorem neural_hpo_dir_guard (dirExists overwrite : Bool) (n : Nat) :
    (dirExists = true → overwrite = false →
        neuralRunHpo dirExists overwrite n = [HpoEvent.raiseDirExists] ∧
        HpoEvent.createStudy ∉ neuralRunHpo dirExists overwrite n ∧
        ∀ i, HpoEvent.runTrial i ∉ neuralRunHpo dirExists overwrite n) ∧
    (dirExists = true → overwrite = true →
        neuralRunHpo dirExists overwrite n =
          HpoEvent.rmtreeLogDir :: HpoEvent.createStudy ::
            (List.range n).map HpoEvent.runTrial) := by
  constructor
  · intro h1 h2
    subst h1; subst h2
    refine ⟨rfl, ?_, ?_⟩
    · simp [neuralRunHpo]
    · intro i
      simp [neuralRunHpo]
  · intro h1 h2
    subst h1; subst h2
    rfl

/-- C9 witness: concrete traces for both guard branches at three trials. -/
theorem neural_hpo_dir_guard_witness :
    neuralRunHpo true false 3 = [HpoEvent.raiseDirExists] ∧
    neuralRunHpo true true 3 =
      HpoEvent.rmtreeLogDir :: HpoEvent.createStudy ::
        (List.range 3).map HpoEvent.runTrial :=
  ⟨((neural_hpo_dir_guard true false 3).1 rfl rfl).1,
   (neural_hpo_dir_guard true true 3).2 rfl rfl⟩

/-! ### Peptide representation, map4c branch
(fingerprint_evaluation.py lines 42-49)

`fps[key] = [encode(MolFromSmiles(x), ...) for x in dataset['SMILES']]`:
`MolFromSmiles` yields no molecule for an unparseable SMILES, and `encode`
applied to no molecule raises, which aborts the whole comprehension.  The
rdkit molecule type is concretised as `Nat`; the external `MolFromSmiles`
and `encode` collaborators are the `parse` and `enc` parameters. -/

def representMap4c (parse : String → Option Nat) (enc : Nat → List ℚ) :
    List String → Except String (List (List ℚ))
  | [] => Except.ok []
  | s :: rest =>
      match parse s with
      | none => Except.error s
      | some m =>
          match representMap4c parse enc rest with
          | Except.ok vs => Except.ok (enc m :: vs)
          | Except.error e => Except.error e

/-- A demonstration parser: only the SMILES `"ZZ"` is unparseable. -/
def parseDemo : String → Option Nat := fun s => if s = "ZZ" then none else some 0

/-- A demonstration fingerprint. -/
def encDemo : Nat → List ℚ := fun _ => [1]

/-- C4 counterexample: a batch of three parseable records and one
unparseable one yields an error for the whole batch, not the three
representations of the parseable records. -/
theorem unparseable_record_aborts_batch :
    representMap4c parseDemo encDemo ["A", "B", "C", "ZZ"] ≠
      Except.ok ((["A", "B", "C", "ZZ"].filterMap
        (fun s => (parseDemo s).map encDemo))) := by
  intro h
  rw [show representMap4c parseDemo encDemo ["A", "B", "C", "ZZ"] =
        Except.error "ZZ" from rfl] at h
  exact Except.noConfusion h

/-- C4 amended: a fully parseable batch yields exactly one representation
per record; a batch with any unparseable record raises, aborting the whole
batch (no record is excluded and no substitute vector is produced). -/
theorem represent_batch_per_record (parse : String → Option Nat)
    (enc : Nat → List ℚ) (smiles : List String) :
    ((∀ s ∈ smiles, (parse s).isSome) →
        representMap4c parse enc smiles =
          Except.ok (smiles.filterMap (fun s => (parse s).map enc))) ∧
    ((∃ s ∈ smiles, parse s = none) →
        ∃ t, representMap4c parse enc smiles = Except.error t) := by
  constructor
  · intro h
    induction smiles with
    | nil => rfl
    | cons s rest ih =>
        have hs : (parse s).isSome := h s (List.mem_cons_self s rest)
        obtain ⟨m, hm⟩ := Option.isSome_iff_exists.mp hs
        have hrest := ih (fun x hx => h x (List.mem_cons_of_mem s hx))
        simp only [representMap4c, hm, hrest, List.filterMap_cons]
        rfl
  · intro h
    induction smiles with
    | nil =>
        obtain ⟨n, hn, _⟩ := h
        exact absurd hn (List.not_mem_nil n)
    | cons s rest ih =>
        cases hps : parse s with
        | none => exact ⟨s, by simp only [representMap4c, hps]⟩
        | some m =>
            obtain ⟨x, hx, hxnone⟩ := h
            rcases List.mem_cons.mp hx with hxe | hxr
            · subst hxe
              rw [hps] at hxnone
              exact absurd hxnone (by simp)
            · obtain ⟨t, ht⟩ := ih ⟨x, hxr, hxnone⟩
              exact ⟨t, by simp only [representMap4c, hps, ht]⟩

/-- C4 amended witness: a fully parseable batch and a batch containing the
unparseable record. -/
theorem represent_batch_per_record_witness :
    representMap4c parseDemo encDemo ["A", "B"] =
      Except.ok (["A", "B"].filterMap (fun s => (parseDemo s).map encDemo)) ∧
    ∃ t, representMap4c parseDemo encDemo ["A", "ZZ"] = Except.error t := by
  constructor
  · exact (represent_batch_per_record parseDemo encDemo ["A", "B"]).1 (by decide)
  · exact (represent_batch_per_record parseDemo encDemo ["A", "ZZ"]).2
      ⟨"ZZ", by decide, by decide⟩

/-! ### Protein representation cache
(fingerprint_evaluation.py lines 161-186) -/

/-- The persisted store file name, `prot_{task}.json` (line 163). -/
def saveFileName (task : String) : String := "prot_" ++ task ++ ".json"

/-- `represent_proteins`: if the save file exists, load and return its
contents without computing; otherwise produce the embeddings (`compute`
stands for the external ESM-2 forward passes over the sequences), dump them
to the save file and return them.  The filesystem is modelled as a map from
file name to stored vectors; the returned boolean records whether the
embedding model was invoked. -/
def representProteins (store : String → Option (List (List ℚ)))
    (task : String) (compute : List (List ℚ)) :
    List (List ℚ) × (String → Option (List (List ℚ))) × Bool :=
  match store (saveFileName task) with
  | some reprs => (reprs, store, false)
  | none =>
      (compute,
       fun k => if k = saveFileName task then some compute else store k,
       true)

/-- C6: a cache hit returns the stored vectors unchanged without invoking
the embedding computation; two successive calls with the same key return
identical vectors, and the computation runs at most once across them. -/
theorem protein_cache_hit_idempotent (store : String → Option (List (List ℚ)))
    (task : String) (compute : List (List ℚ)) :
    (∀ v, store (saveFileName task) = some v →
        representProteins store task compute = (v, store, false)) ∧
    (representProteins store task compute).1 =
      (representProteins (representProteins store task compute).2.1
        task compute).1 ∧
    ¬ ((representProteins store task compute).2.2 = true ∧
       (representProteins (representProteins store task compute).2.1
         task compute).2.2 = true) := by
  refine ⟨?_, ?_, ?_⟩
  · intro v hv
    simp only [representProteins, hv]
  · cases h : store (saveFileName task) with
    | some v0 => simp [representProteins, h]
    | none => simp [representProteins, h]
  · cases h : store (saveFileName task) with
    | some v0 =>
        simp only [representProteins, h]
        intro hc
        exact Bool.noConfusion hc.1
    | none =>
        simp only [representProteins, h]
        intro hc
        have hc2 := hc.2
        simp only [if_pos rfl] at hc2
        exact Bool.noConfusion hc2

/-- A demonstration store already holding vectors for the `c-binding`
task. -/
def storeDemo : String → Option (List (List ℚ)) :=
  fun k => if k = saveFileName "c-binding" then some [[5]] else none

/-- C6 witness: a concrete cache hit returns the stored vectors and skips
the computation. -/
theorem protein_cache_hit_idempotent_witness :
    representProteins storeDemo "c-binding" [[1], [2]] =
      ([[5]], storeDemo, false) :=
  (protein_cache_hit_idempotent storeDemo "c-binding" [[1], [2]]).1 [[5]] rfl

/-! ### Masked mean pooling
(fingerprint_evaluation.py lines 116-125 and 179-183)

`hidden` is one feature channel of the per-token hidden states
`model(**input_ids).last_hidden_state` of a single batch element, listed by
token position up to the padded batch length; `mask` is that element's row
of `attention_mask`. -/

def meanQ (xs : List ℚ) : ℚ := xs.sum / xs.length

/-- Peptide branch (lines 122-125): `length = mask[i].sum()` then the mean
of `vector[i, :length]` along the position axis. -/
def peptidePooled (hidden : List ℚ) (mask : List Nat) : ℚ :=
  meanQ (hidden.take mask.sum)

/-- Protein branch (line 183): the mean of `vector[i, :len(seq)]` — the
slice bound is the raw sequence's character length, not the attention
mask. -/
def proteinPooled (hidden : List ℚ) (seqLen : Nat) : ℚ :=
  meanQ (hidden.take seqLen)

/-- The spec's pooling, stated in its own words: the mean over exactly the
positions whose attention-mask entry is 1. -/
def maskedMeanSpec (hidden : List ℚ) (mask : List Nat) : ℚ :=
  meanQ ((hidden.zip mask).filterMap
    (fun p => if p.2 = 1 then some p.1 else none))

theorem filterMap_zip_ones (xs : List ℚ) :
    ((xs.zip (List.replicate xs.length 1)).filterMap
      (fun p => if p.2 = 1 then some p.1 else none)) = xs := by
  induction xs with
  | nil => rfl
  | cons a t ih =>
      simp only [List.length_cons, List.replicate_succ, List.zip_cons_cons,
        List.filterMap_cons, ih]
      rfl

theorem filterMap_zip_zeros (xs : List ℚ) :
    ∀ m : Nat, ((xs.zip (List.replicate m 0)).filterMap
      (fun p => if p.2 = 1 then some p.1 else none)) = [] := by
  induction xs with
  | nil => intro m; simp
  | cons a t ih =>
      intro m
      cases m with
      | zero => simp
      | succ m0 =>
          simp only [List.replicate_succ, List.zip_cons_cons,
            List.filterMap_cons, ih m0]
          rfl

/-- C7 counterexample: for a protein sequence of character length 2 whose
tokenisation has four valid positions (mask `[1,1,1,1,0]`), the protein
branch pools the first two positions only, which differs from the mean over
the mask's valid positions. -/
theorem protein_pool_ignores_mask :
    proteinPooled [1, 2, 3, 4, 0] 2 ≠
      maskedMeanSpec [1, 2, 3, 4, 0] [1, 1, 1, 1, 0] := by
  norm_num [proteinPooled, maskedMeanSpec, meanQ, List.zip_cons_cons,
    List.filterMap_cons]

/-- C7 amended: under right padding (mask of `k` ones then `m` zeros over a
hidden-state row of length `k + m`), the peptide branch's pooling equals the
mean over exactly the valid positions; the protein branch agrees with that
masked mean only when the raw character length happens to equal the
mask-derived token count `k`. -/
theorem masked_mean_pooling (hidden : List ℚ) (k m seqLen : Nat)
    (hlen : hidden.length = k + m) :
    (peptidePooled hidden (List.replicate k 1 ++ List.replicate m 0) =
        maskedMeanSpec hidden (List.replicate k 1 ++ List.replicate m 0)) ∧
    (seqLen = k →
        proteinPooled hidden seqLen =
          maskedMeanSpec hidden (List.replicate k 1 ++ List.replicate m 0)) := by
  have hkle : k ≤ hidden.length := by omega
  have hsum : (List.replicate k (1 : Nat) ++ List.replicate m 0).sum = k := by
    simp
  have hmask : ((hidden.zip
        (List.replicate k 1 ++ List.replicate m 0)).filterMap
      (fun p => if p.2 = 1 then some p.1 else none)) = hidden.take k := by
    conv_lhs => rw [← List.take_append_drop k hidden]
    rw [List.zip_append (by rw [List.length_take, List.length_replicate]; omega)]
    rw [List.filterMap_append]
    rw [show List.replicate k (1 : Nat) =
          List.replicate (hidden.take k).length 1 by
        rw [List.length_take]
        congr 1
        omega]
    rw [filterMap_zip_ones, filterMap_zip_zeros, List.append_nil]
  constructor
  · unfold peptidePooled maskedMeanSpec
    rw [hsum, hmask]
  · intro hseq
    subst hseq
    unfold proteinPooled maskedMeanSpec
    rw [hmask]

/-- C7 amended witness: concrete hidden states `[1, 2, 3]` with two valid
positions and one padding position. -/
theorem masked_mean_pooling_witness :
    peptidePooled [1, 2, 3] (List.replicate 2 1 ++ List.replicate 1 0) =
      maskedMeanSpec [1, 2, 3] (List.replicate 2 1 ++ List.replicate 1 0) ∧
    proteinPooled [1, 2, 3] 2 =
      maskedMeanSpec [1, 2, 3] (List.replicate 2 1 ++ List.replicate 1 0) :=
  ⟨(masked_mean_pooling [1, 2, 3] 2 1 2 rfl).1,
   (masked_mean_pooling [1, 2, 3] 2 1 2 rfl).2 rfl⟩

/-! ### Metrics registry (metrics.py lines 14-36 and 212-228) -/

/-- `Metrics.add_metric`: dictionary insert of a named scoring function. -/
def addMetric {α : Type} (d : String → Option α) (name : String) (fn : α) :
    String → Option α :=
  fun k => if k = name then some fn else d k

/-- `Metrics.get_metrics`: walk the requested names, copying each registered
metric into a fresh dictionary, and raise `ValueError` at the first name
that is not registered. -/
def getMetrics {α : Type} (registry : String → Option α) :
    List String → (String → Option α) → Except String (String → Option α)
  | [], acc => Except.ok acc
  | n :: rest, acc =>
      match registry n with
      | some fn => getMetrics registry rest (addMetric acc n fn)
      | none => Except.error ("Metric: " ++ n ++ " not supported.")

/-- `get_metrics` starting from the fresh empty `Metrics()` dictionary. -/
def getMetricsFrom {α : Type} (registry : String → Option α)
    (names : List String) : Except String (String → Option α) :=
  getMetrics registry names (fun _ => none)

theorem getMetrics_ok {α : Type} (registry : String → Option α)
    (names : List String) :
    ∀ acc : String → Option α, (∀ n ∈ names, (registry n).isSome) →
      getMetrics registry names acc =
        Except.ok (fun k => if k ∈ names then registry k else acc k) := by
  induction names with
  | nil =>
      intro acc h
      simp only [getMetrics]
      congr 1
  | cons n rest ih =>
      intro acc h
      have hn : (registry n).isSome := h n (List.mem_cons_self n rest)
      obtain ⟨fn, hfn⟩ := Option.isSome_iff_exists.mp hn
      simp only [getMetrics, hfn]
      rw [ih (addMetric acc n fn) (fun x hx => h x (List.mem_cons_of_mem n hx))]
      congr 1
      funext k
      by_cases hkr : k ∈ rest
      · simp [hkr, List.mem_cons]
      · by_cases hkn : k = n
        · subst hkn
          simp [hkr, addMetric, hfn, List.mem_cons]
        · simp [hkr, hkn, addMetric, List.mem_cons]

theorem getMetrics_err {α : Type} (registry : String → Option α)
    (names : List String) :
    ∀ acc : String → Option α, (∃ n ∈ names, registry n = none) →
      ∃ msg, getMetrics registry names acc = Except.error msg := by
  induction names with
  | nil =>
      intro acc h
      obtain ⟨n, hn, _⟩ := h
      exact absurd hn (List.not_mem_nil n)
  | cons n rest ih =>
      intro acc h
      cases hrn : registry n with
      | none =>
          exact ⟨"Metric: " ++ n ++ " not supported.",
            by simp only [getMetrics, hrn]⟩
      | some fn =>
          obtain ⟨x, hx, hxnone⟩ := h
          rcases List.mem_cons.mp hx with hxe | hxr
          · subst hxe
            rw [hrn] at hxnone
            exact absurd hxnone (by simp)
          · obtain ⟨msg, hmsg⟩ := ih (addMetric acc n fn) ⟨x, hxr, hxnone⟩
            exact ⟨msg, by simp only [getMetrics, hrn]; exact hmsg⟩

/-- C8: selecting metric names succeeds with exactly the requested metrics
bound from the registry when every name is registered, and fails with the
`ValueError` if any name is absent — never a partial or defaulted set. -/
theorem metrics_select_all_or_fail {α : Type} (registry : String → Option α)
    (names : List String) :
    ((∀ n ∈ names, (registry n).isSome) →
        getMetricsFrom registry names =
          Except.ok (fun k => if k ∈ names then registry k else none)) ∧
    ((∃ n ∈ names, registry n = none) →
        ∃ msg, getMetricsFrom registry names = Except.error msg) := by
  constructor
  · intro h
    exact getMetrics_ok registry names _ h
  · intro h
    exact getMetrics_err registry names _ h

/-- The registered metric names in registration order (metrics.py lines
212-228); each scoring callable is external (scipy/sklearn) and is modelled
by its registration index. -/
def registeredMetricNames : List String :=
  ["acc", "auroc", "f1", "f1_weighted", "f1_max", "mcc", "spcc", "pcc",
   "euclidean", "cosine", "manhattan", "mse", "rmse", "aupr", "mae",
   "precision_at_l5"]

/-- The module-level `metrics_collection` registry. -/
def metricsCollection : String → Option Nat :=
  (registeredMetricNames.zip (List.range registeredMetricNames.length)).foldl
    (fun d p => addMetric d p.1 p.2) (fun _ => none)

/-- C8 witness: selecting two registered names succeeds; selecting an
unregistered name fails. -/
theorem metrics_select_all_or_fail_witness :
    getMetricsFrom metricsCollection ["acc", "mcc"] =
      Except.ok
        (fun k => if k ∈ ["acc", "mcc"] then metricsCollection k else none) ∧
    ∃ msg, getMetricsFrom metricsCollection ["frobnicate"] =
      Except.error msg := by
  constructor
  · exact (metrics_select_all_or_fail metricsCollection ["acc", "mcc"]).1
      (by decide)
  · exact (metrics_select_all_or_fail metricsCollection ["frobnicate"]).2
      ⟨"frobnicate", by decide, by decide⟩

/-! ### SVM configuration and persistence
(fingerprint_evaluation.py lines 197-206, 246-268 and 277-281) -/

inductive ConfigVal where
  | str (s : String)
  | num (q : ℚ)
  | int (n : Int)
deriving DecidableEq

/-- The sampled svm Configuration (lines 197-206): fixed linear kernel,
sampled `C` and `epsilon`, fixed `max_iter`. -/
def svmConfig (c eps : ℚ) : List (String × ConfigVal) :=
  [("kernel", ConfigVal.str "linear"),
   ("C", ConfigVal.num c),
   ("epsilon", ConfigVal.num eps),
   ("max_iter", ConfigVal.int 1000000)]

/-- `del config['epsilon']` (line 259). -/
def delConfigKey (key : String) (cfg : List (String × ConfigVal)) :
    List (String × ConfigVal) :=
  cfg.filter (fun p => p.1 != key)

/-- The configuration the svm model is constructed from (lines 246-268):
regression tasks build `SVR(**config)` directly; any other task deletes
`epsilon` and builds `SVC(**config)`. -/
def svmTrialConfig (task : String) (c eps : ℚ) : List (String × ConfigVal) :=
  if task ∈ REGRESSION_TASKS then svmConfig c eps
  else delConfigKey "epsilon" (svmConfig c eps)

/-- The dictionary dumped to `best_model.json` on improvement (lines
277-281): the trial's configuration updated with the model tag. -/
def svmPersistedConfig (alg task : String) (c eps : ℚ) :
    List (String × ConfigVal) :=
  svmTrialConfig task c eps ++ [("model", ConfigVal.str alg)]

/-- C10: a classification svm search constructs the classifier from, and
persists, a configuration without the `epsilon` key; a regression svm
search persists the `epsilon` key. -/
theorem svm_epsilon_deleted (task : String) (c eps : ℚ) :
    (task ∈ CLASSIFICATION_TASKS →
        "epsilon" ∉ (svmTrialConfig task c eps).map Prod.fst ∧
        "epsilon" ∉ (svmPersistedConfig "svm" task c eps).map Prod.fst) ∧
    (task ∈ REGRESSION_TASKS →
        "epsilon" ∈ (svmPersistedConfig "svm" task c eps).map Prod.fst) := by
  constructor
  · intro htask
    have h2 : task = "c-sol" ∨ task = "c-cpp" := by
      simpa [CLASSIFICATION_TASKS] using htask
    rcases h2 with h | h <;> subst h
    · have e1 : (svmTrialConfig "c-sol" c eps).map Prod.fst =
          ["kernel", "C", "max_iter"] := rfl
      have e2 : (svmPersistedConfig "svm" "c-sol" c eps).map Prod.fst =
          ["kernel", "C", "max_iter", "model"] := rfl
      rw [e1, e2]
      exact ⟨by decide, by decide⟩
    · have e1 : (svmTrialConfig "c-cpp" c eps).map Prod.fst =
          ["kernel", "C", "max_iter"] := rfl
      have e2 : (svmPersistedConfig "svm" "c-cpp" c eps).map Prod.fst =
          ["kernel", "C", "max_iter", "model"] := rfl
      rw [e1, e2]
      exact ⟨by decide, by decide⟩
  · intro htask
    have h3 : task = "c-binding" ∨ task = "nc-binding" ∨ task = "nc-cpp" := by
      simpa [REGRESSION_TASKS] using htask
    rcases h3 with h | h | h <;> subst h
    · have e1 : (svmPersistedConfig "svm" "c-binding" c eps).map Prod.fst =
          ["kernel", "C", "epsilon", "max_iter", "model"] := rfl
      rw [e1]
      decide
    · have e1 : (svmPersistedConfig "svm" "nc-binding" c eps).map Prod.fst =
          ["kernel", "C", "epsilon", "max_iter", "model"] := rfl
      rw [e1]
      decide
    · have e1 : (svmPersistedConfig "svm" "nc-cpp" c eps).map Prod.fst =
          ["kernel", "C", "epsilon", "max_iter", "model"] := rfl
      rw [e1]
      decide

/-- C10 witness: concrete classification (`c-sol`) and regression
(`c-binding`) svm searches with sampled `C = 1` and `epsilon = 2`. -/
theorem svm_epsilon_deleted_witness :
    "epsilon" ∉ (svmPersistedConfig "svm" "c-sol" 1 2).map Prod.fst ∧
    "epsilon" ∈ (svmPersistedConfig "svm" "c-binding" 1 2).map Prod.fst :=
  ⟨((svm_epsilon_deleted "c-sol" 1 2).1 (by decide)).2,
   (svm_epsilon_deleted "c-binding" 1 2).2 (by decide)⟩

end BilnLM
